import Mathlib

/-!
Verification of the SSA (Gillespie) engine in `src/gillespie.py`
(`gillespie_simulation`), via a shallow embedding.

Modelling choices, read off the source line by line:

* Species counts are integers (`List ℤ`); times and propensities are exact
  rationals (`ℚ`).
* The process-wide random source is made explicit as a finite list of draws,
  one pair per loop iteration: a standard-exponential sample `u ≥ 0`
  (numpy computes `exponential(scale) = scale * standard_exponential()`)
  and the categorical index `k` returned by `np.random.choice`.
  Stream values outside the samplers' support (`u < 0`, or
  `k ≥ len(propensities)`) are mapped to `SimError.invalidDraw`: the real
  samplers never produce them.
* Runtime errors numpy would raise are explicit error outcomes:
  `negativeScale` (`np.random.exponential` with `scale < 0`),
  `negativeProb` (`np.random.choice` validates `p ≥ 0`; in exact rational
  arithmetic `sum(p) = 1` holds whenever `propensity_sum ≠ 0`, so only the
  sign check can fire), `indexError` (`reactions[reaction_index]` out of
  range), `shapeError` (`current_state += row` with incompatible shapes;
  a length-1 row broadcasts, as in numpy).
* The division `1/propensity_sum` in `np.random.exponential(scale=1/propensity_sum)`
  goes through `safeInv`, which refuses to divide by zero, so that
  unreachability of division by zero is a provable statement
  (`SimError.divByZero`).
* A run that consumes the whole stream without terminating is the model
  artifact `SimError.streamEnded`; every actual execution of the Python loop
  corresponds to a sufficiently long stream, so properties of returned
  trajectories are stated for `SimResult.ok` outcomes.
* The source appends to `times` and `populations` in lockstep at the same
  program points; the embedding fuses the two parallel lists into one list
  of `(time, state)` pairs.
-/

namespace Gillespie

/-- Outcomes numpy would raise as exceptions, plus the `streamEnded` model
artifact for runs longer than the supplied random stream. -/
inductive SimError where
  | streamEnded
  | divByZero
  | negativeScale
  | invalidDraw
  | negativeProb
  | indexError
  | shapeError
deriving DecidableEq

/-- Result of a simulation run: a trajectory of `(time, state)` pairs, or an
error outcome. -/
inductive SimResult where
  | ok (traj : List (ℚ × List ℤ))
  | err (e : SimError)
deriving DecidableEq

/-- Embedding of `np.maximum(current_state, 0)` (src/gillespie.py line 68):
clamp every component to be at least zero. -/
def clamp0 (s : List ℤ) : List ℤ := s.map (fun x => max x 0)

/-- Embedding of the in-place `current_state += reactions[reaction_index]`
(src/gillespie.py line 65): componentwise add when the shapes agree, numpy
broadcast when the row has length 1, and a shape error otherwise. -/
def applyRow (state row : List ℤ) : Option (List ℤ) :=
  if row.length = state.length then
    some (List.zipWith (fun a b => a + b) state row)
  else if row.length = 1 then
    some (state.map (fun a => a + row.headI))
  else none

/-- Division that refuses a zero denominator, used for the
`scale = 1/propensity_sum` argument of `np.random.exponential`
(src/gillespie.py line 48). -/
def safeInv (a : ℚ) : Option ℚ := if a = 0 then none else some (1 / a)

/-- Embedding of the `while current_time < max_time` loop of
`gillespie_simulation` (src/gillespie.py lines 36-73). Returns the list of
`(time, state)` pairs appended after the current point. One stream element is
consumed per iteration that samples. -/
def simLoop (propensity_func : List ℤ → List ℚ) (reactions : List (List ℤ))
    (max_time : ℚ) (stream : List (ℚ × ℕ)) (current_time : ℚ)
    (current_state : List ℤ) : SimResult :=
    if current_time < max_time then
      -- propensities = propensity_func(current_state), inlined below;
      -- propensity_sum = np.sum(propensities)
      -- if propensity_sum == 0: break
      if (propensity_func current_state).sum = 0 then
        SimResult.ok []
      else
        -- time_step = np.random.exponential(scale=1/propensity_sum):
        -- the scale is 1/propensity_sum, the realized sample is
        -- u * scale for the standard-exponential draw u of this iteration
        match safeInv (propensity_func current_state).sum with
        | none => SimResult.err SimError.divByZero
        | some scale =>
          if scale < 0 then SimResult.err SimError.negativeScale
          else
            match stream with
            | [] => SimResult.err SimError.streamEnded
            | (u, k) :: rest =>
              if u < 0 then SimResult.err SimError.invalidDraw
              else
                -- if current_time + time_step > max_time: truncate and stop
                if current_time + u * scale > max_time then
                  SimResult.ok [(max_time, current_state)]
                else
                  -- reaction_probs = propensities / propensity_sum;
                  -- np.random.choice validates the probabilities and returns
                  -- an index below len(propensities)
                  if (propensity_func current_state).any (fun p => decide (p < 0)) then
                    SimResult.err SimError.negativeProb
                  else if k < (propensity_func current_state).length then
                    match reactions[k]? with
                    | none => SimResult.err SimError.indexError
                    | some row =>
                      match applyRow current_state row with
                      | none => SimResult.err SimError.shapeError
                      | some updated =>
                        match simLoop propensity_func reactions max_time rest
                            (current_time + u * scale) (clamp0 updated) with
                        | SimResult.ok tr =>
                            SimResult.ok ((current_time + u * scale, clamp0 updated) :: tr)
                        | SimResult.err e => SimResult.err e
                  else SimResult.err SimError.invalidDraw
    else SimResult.ok []
termination_by structural stream

/-- Embedding of `gillespie_simulation` (src/gillespie.py lines 3-74): seed the
trajectory with `(0, initial_state)`, fetch the stoichiometry table once via
`reaction_func()`, and run the loop. -/
def gillespie_simulation (initial_state : List ℤ) (propensity_func : List ℤ → List ℚ)
    (reaction_func : Unit → List (List ℤ)) (max_time : ℚ)
    (stream : List (ℚ × ℕ)) : SimResult :=
  -- reactions = reaction_func() (line 33), inlined as the loop's table argument
  match simLoop propensity_func (reaction_func ()) max_time stream 0 initial_state with
  | SimResult.ok tr => SimResult.ok ((0, initial_state) :: tr)
  | SimResult.err e => SimResult.err e

/-- Prepends one trajectory entry to a successful result, leaving errors
unchanged, as `gillespie_simulation` seeds the trajectory and as the loop body
extends it after a reaction fires. -/
def consEntry (p : ℚ × List ℤ) : SimResult → SimResult
  | SimResult.ok tr => SimResult.ok (p :: tr)
  | SimResult.err e => SimResult.err e

/-- Relation between two consecutive trajectory entries produced by a firing
reaction: some row of the stoichiometry table, added to the earlier state
(src/gillespie.py line 65) and clamped at zero (line 68), gives the later
state. -/
def ReactStep (reactions : List (List ℤ)) (p q : ℚ × List ℤ) : Prop :=
  ∃ (k : ℕ) (row updated : List ℤ), reactions[k]? = some row ∧
    applyRow p.2 row = some updated ∧ q.2 = clamp0 updated

/-- Recognizes the division-by-zero outcome among results. -/
def isDivZeroErr : SimResult → Bool
  | SimResult.err SimError.divByZero => true
  | _ => false

/-- Big-step execution relation of the simulation loop: one constructor per
exit path of the `while` loop of src/gillespie.py, with the random draws taken
from the explicit stream. `GRun f re mT stream t s r` holds when a run of the
loop from time `t` and state `s`, drawing from `stream`, can yield `r`. Phrased
as a relation so that determinism of the engine under a fixed random stream is
a statement about runs rather than a tautology about a function. -/
inductive GRun (f : List ℤ → List ℚ) (re : List (List ℤ)) (mT : ℚ) :
    List (ℚ × ℕ) → ℚ → List ℤ → SimResult → Prop where
  | horizonDone {stream t s} (hlt : ¬ t < mT) :
      GRun f re mT stream t s (SimResult.ok [])
  | absorbed {stream t s} (hlt : t < mT) (h0 : (f s).sum = 0) :
      GRun f re mT stream t s (SimResult.ok [])
  | divZero {stream t s} (hlt : t < mT) (h0 : ¬ (f s).sum = 0)
      (hinv : safeInv (f s).sum = none) :
      GRun f re mT stream t s (SimResult.err SimError.divByZero)
  | negScale {stream t s scale} (hlt : t < mT) (h0 : ¬ (f s).sum = 0)
      (hinv : safeInv (f s).sum = some scale) (hsc : scale < 0) :
      GRun f re mT stream t s (SimResult.err SimError.negativeScale)
  | outOfDraws {t s scale} (hlt : t < mT) (h0 : ¬ (f s).sum = 0)
      (hinv : safeInv (f s).sum = some scale) (hsc : ¬ scale < 0) :
      GRun f re mT [] t s (SimResult.err SimError.streamEnded)
  | negDraw {u k rest t s scale} (hlt : t < mT) (h0 : ¬ (f s).sum = 0)
      (hinv : safeInv (f s).sum = some scale) (hsc : ¬ scale < 0) (hu : u < 0) :
      GRun f re mT ((u, k) :: rest) t s (SimResult.err SimError.invalidDraw)
  | truncated {u k rest t s scale} (hlt : t < mT) (h0 : ¬ (f s).sum = 0)
      (hinv : safeInv (f s).sum = some scale) (hsc : ¬ scale < 0) (hu : ¬ u < 0)
      (htr : t + u * scale > mT) :
      GRun f re mT ((u, k) :: rest) t s (SimResult.ok [(mT, s)])
  | negProp {u k rest t s scale} (hlt : t < mT) (h0 : ¬ (f s).sum = 0)
      (hinv : safeInv (f s).sum = some scale) (hsc : ¬ scale < 0) (hu : ¬ u < 0)
      (htr : ¬ t + u * scale > mT)
      (hneg : (f s).any (fun p => decide (p < 0)) = true) :
      GRun f re mT ((u, k) :: rest) t s (SimResult.err SimError.negativeProb)
  | unsupportedIdx {u k rest t s scale} (hlt : t < mT) (h0 : ¬ (f s).sum = 0)
      (hinv : safeInv (f s).sum = some scale) (hsc : ¬ scale < 0) (hu : ¬ u < 0)
      (htr : ¬ t + u * scale > mT)
      (hneg : (f s).any (fun p => decide (p < 0)) = false)
      (hk : ¬ k < (f s).length) :
      GRun f re mT ((u, k) :: rest) t s (SimResult.err SimError.invalidDraw)
  | missingRow {u k rest t s scale} (hlt : t < mT) (h0 : ¬ (f s).sum = 0)
      (hinv : safeInv (f s).sum = some scale) (hsc : ¬ scale < 0) (hu : ¬ u < 0)
      (htr : ¬ t + u * scale > mT)
      (hneg : (f s).any (fun p => decide (p < 0)) = false)
      (hk : k < (f s).length) (hrow : re[k]? = none) :
      GRun f re mT ((u, k) :: rest) t s (SimResult.err SimError.indexError)
  | badShape {u k rest t s scale row} (hlt : t < mT) (h0 : ¬ (f s).sum = 0)
      (hinv : safeInv (f s).sum = some scale) (hsc : ¬ scale < 0) (hu : ¬ u < 0)
      (htr : ¬ t + u * scale > mT)
      (hneg : (f s).any (fun p => decide (p < 0)) = false)
      (hk : k < (f s).length) (hrow : re[k]? = some row)
      (happ : applyRow s row = none) :
      GRun f re mT ((u, k) :: rest) t s (SimResult.err SimError.shapeError)
  | fired {u k rest t s scale row updated r} (hlt : t < mT) (h0 : ¬ (f s).sum = 0)
      (hinv : safeInv (f s).sum = some scale) (hsc : ¬ scale < 0) (hu : ¬ u < 0)
      (htr : ¬ t + u * scale > mT)
      (hneg : (f s).any (fun p => decide (p < 0)) = false)
      (hk : k < (f s).length) (hrow : re[k]? = some row)
      (happ : applyRow s row = some updated)
      (hnext : GRun f re mT rest (t + u * scale) (clamp0 updated) r) :
      GRun f re mT ((u, k) :: rest) t s (consEntry (t + u * scale, clamp0 updated) r)

/-- Relational description of one full call of `gillespie_simulation`: the loop
runs from `(0, initial_state)` and the result seeds the trajectory with the
initial point. -/
def GillespieRun (initial_state : List ℤ) (propensity_func : List ℤ → List ℚ)
    (reaction_func : Unit → List (List ℤ)) (max_time : ℚ)
    (stream : List (ℚ × ℕ)) (result : SimResult) : Prop :=
  ∃ r, GRun propensity_func (reaction_func ()) max_time stream 0 initial_state r ∧
    result = consEntry (0, initial_state) r

/-- Propensity evaluator with a single reaction channel, active until the
single species reaches count 1; used to exhibit the absent length validation. -/
def mismatchProps : List ℤ → List ℚ := fun s => if 1 ≤ s.getD 0 0 then [0] else [1]

/-- Stoichiometry table with two rows, one row more than `mismatchProps` has
channels. -/
def mismatchTable : Unit → List (List ℤ) := fun _ => [[1], [5]]

/-- Unfolding of `safeInv` on a successful division. -/
theorem safeInv_eq_some {a b : ℚ} (h : safeInv a = some b) : a ≠ 0 ∧ b = 1 / a := by
  unfold safeInv at h
  by_cases h0 : a = 0
  · rw [if_pos h0] at h
    cases h
  · rw [if_neg h0] at h
    exact ⟨h0, (Option.some.inj h).symm⟩

/-- Inversion principle for a successful loop iteration: a returned suffix is
empty (loop guard failed or absorption), a lone truncation point, or one fired
reaction followed by a successful remainder. -/
theorem simLoop_ok_cases
    (propensity_func : List ℤ → List ℚ) (reactions : List (List ℤ))
    (max_time : ℚ) (stream : List (ℚ × ℕ)) (current_time : ℚ)
    (current_state : List ℤ) (tr : List (ℚ × List ℤ))
    (hok : simLoop propensity_func reactions max_time stream current_time current_state =
      SimResult.ok tr) :
    (tr = [] ∧ (¬ current_time < max_time ∨ (propensity_func current_state).sum = 0)) ∨
    (tr = [(max_time, current_state)] ∧ current_time < max_time) ∨
    (∃ (u : ℚ) (k : ℕ) (rest : List (ℚ × ℕ)) (row updated : List ℤ)
        (tr2 : List (ℚ × List ℤ)),
      stream = (u, k) :: rest ∧ current_time < max_time ∧
      (propensity_func current_state).sum ≠ 0 ∧ 0 ≤ u ∧
      0 ≤ 1 / (propensity_func current_state).sum ∧
      current_time + u * (1 / (propensity_func current_state).sum) ≤ max_time ∧
      k < (propensity_func current_state).length ∧
      reactions[k]? = some row ∧ applyRow current_state row = some updated ∧
      simLoop propensity_func reactions max_time rest
        (current_time + u * (1 / (propensity_func current_state).sum))
        (clamp0 updated) = SimResult.ok tr2 ∧
      tr = (current_time + u * (1 / (propensity_func current_state).sum),
        clamp0 updated) :: tr2) := by
  rw [simLoop.eq_def] at hok
  split at hok
  case isFalse hlt =>
    injection hok with h
    subst h
    exact Or.inl ⟨rfl, Or.inl hlt⟩
  case isTrue hlt =>
    split at hok
    case isTrue h0 =>
      injection hok with h
      subst h
      exact Or.inl ⟨rfl, Or.inr h0⟩
    case isFalse h0 =>
      split at hok
      case h_1 => simp at hok
      case h_2 scale hinv =>
        obtain ⟨-, hscale⟩ := safeInv_eq_some hinv
        subst hscale
        split at hok
        case isTrue => simp at hok
        case isFalse hsc =>
          split at hok
          case h_1 => simp at hok
          case h_2 u k rest =>
            split at hok
            case isTrue => simp at hok
            case isFalse hu =>
              split at hok
              case isTrue htr =>
                injection hok with h
                subst h
                exact Or.inr (Or.inl ⟨rfl, hlt⟩)
              case isFalse htr =>
                split at hok
                case isTrue => simp at hok
                case isFalse hneg =>
                  split at hok
                  case isFalse => simp at hok
                  case isTrue hk =>
                    split at hok
                    case h_1 => simp at hok
                    case h_2 row hrow =>
                      split at hok
                      case h_1 => simp at hok
                      case h_2 updated happ =>
                        split at hok
                        case h_2 e hrec => simp at hok
                        case h_1 tr2 hrec =>
                          injection hok with h
                          subst h
                          exact Or.inr (Or.inr ⟨u, k, rest, row, updated, tr2, rfl,
                            hlt, h0, not_lt.mp hu, not_lt.mp hsc, not_lt.mp htr,
                            hk, hrow, happ, hrec, rfl⟩)

/-- Every time recorded by the loop is at most the horizon. -/
theorem simLoop_ok_time_le
    (propensity_func : List ℤ → List ℚ) (reactions : List (List ℤ)) (max_time : ℚ)
    (stream : List (ℚ × ℕ)) (current_time : ℚ) (current_state : List ℤ)
    (tr : List (ℚ × List ℤ))
    (hok : simLoop propensity_func reactions max_time stream current_time current_state =
      SimResult.ok tr) :
    ∀ p ∈ tr, p.1 ≤ max_time := by
  induction stream generalizing current_time current_state tr with
  | nil =>
    rcases simLoop_ok_cases _ _ _ _ _ _ _ hok with ⟨h, -⟩ | ⟨h, -⟩ |
      ⟨u, k, rest, row, updated, tr2, hstream, -⟩
    · subst h
      intro p hp
      simp at hp
    · subst h
      intro p hp
      simp at hp
      simp [hp]
    · simp at hstream
  | cons hd tl ih =>
    rcases simLoop_ok_cases _ _ _ _ _ _ _ hok with ⟨h, -⟩ | ⟨h, -⟩ |
      ⟨u, k, rest, row, updated, tr2, hstream, hlt, h0, hu, hinv, hle, hk, hrow,
        happ, hrec, htr⟩
    · subst h
      intro p hp
      simp at hp
    · subst h
      intro p hp
      simp at hp
      simp [hp]
    · injection hstream with h1 h2
      subst h2
      subst htr
      intro p hp
      rcases List.mem_cons.mp hp with hpe | hp2
      · subst hpe
        exact hle
      · exact ih _ _ _ hrec p hp2

/-- Successive recorded times never decrease: each appended time is the
current time plus a non-negative waiting step, or the horizon itself. -/
theorem simLoop_ok_chain
    (propensity_func : List ℤ → List ℚ) (reactions : List (List ℤ)) (max_time : ℚ)
    (stream : List (ℚ × ℕ)) (current_time : ℚ) (current_state : List ℤ)
    (tr : List (ℚ × List ℤ))
    (hok : simLoop propensity_func reactions max_time stream current_time current_state =
      SimResult.ok tr) :
    List.Chain (fun a b : ℚ × List ℤ => a.1 ≤ b.1) (current_time, current_state) tr := by
  induction stream generalizing current_time current_state tr with
  | nil =>
    rcases simLoop_ok_cases _ _ _ _ _ _ _ hok with ⟨h, -⟩ | ⟨h, hlt⟩ |
      ⟨u, k, rest, row, updated, tr2, hstream, -⟩
    · subst h
      exact List.Chain.nil
    · subst h
      exact List.Chain.cons (le_of_lt hlt) List.Chain.nil
    · simp at hstream
  | cons hd tl ih =>
    rcases simLoop_ok_cases _ _ _ _ _ _ _ hok with ⟨h, -⟩ | ⟨h, hlt⟩ |
      ⟨u, k, rest, row, updated, tr2, hstream, hlt, h0, hu, hinv, hle, hk, hrow,
        happ, hrec, htr⟩
    · subst h
      exact List.Chain.nil
    · subst h
      exact List.Chain.cons (le_of_lt hlt) List.Chain.nil
    · injection hstream with h1 h2
      subst h2
      subst htr
      exact List.Chain.cons (le_add_of_nonneg_right (mul_nonneg hu hinv))
        (ih _ _ _ hrec)

/-- Every state the loop records is componentwise non-negative, given that the
current state is: a recorded state is either the clamped update or a copy of
the current state. -/
theorem simLoop_ok_nonneg
    (propensity_func : List ℤ → List ℚ) (reactions : List (List ℤ)) (max_time : ℚ)
    (stream : List (ℚ × ℕ)) (current_time : ℚ) (current_state : List ℤ)
    (tr : List (ℚ × List ℤ))
    (hok : simLoop propensity_func reactions max_time stream current_time current_state =
      SimResult.ok tr)
    (hcur : ∀ x ∈ current_state, 0 ≤ x) :
    ∀ p ∈ tr, ∀ x ∈ p.2, 0 ≤ x := by
  induction stream generalizing current_time current_state tr with
  | nil =>
    rcases simLoop_ok_cases _ _ _ _ _ _ _ hok with ⟨h, -⟩ | ⟨h, -⟩ |
      ⟨u, k, rest, row, updated, tr2, hstream, -⟩
    · subst h
      intro p hp
      simp at hp
    · subst h
      intro p hp
      simp at hp
      simp [hp]
      exact hcur
    · simp at hstream
  | cons hd tl ih =>
    rcases simLoop_ok_cases _ _ _ _ _ _ _ hok with ⟨h, -⟩ | ⟨h, -⟩ |
      ⟨u, k, rest, row, updated, tr2, hstream, hlt, h0, hu, hinv, hle, hk, hrow,
        happ, hrec, htr⟩
    · subst h
      intro p hp
      simp at hp
    · subst h
      intro p hp
      simp at hp
      simp [hp]
      exact hcur
    · injection hstream with h1 h2
      subst h2
      subst htr
      have hclamp : ∀ x ∈ clamp0 updated, 0 ≤ x := by
        intro x hx
        simp [clamp0] at hx
        obtain ⟨y, -, hy⟩ := hx
        rw [← hy]
        exact le_max_right y 0
      intro p hp
      rcases List.mem_cons.mp hp with hpe | hp2
      · subst hpe
        exact hclamp
      · exact ih _ _ _ hrec hclamp p hp2

/-- Absorption: when the loop stops strictly before the horizon, it was the
zero-propensity break, so the propensity sum at the last recorded point
vanishes. -/
theorem simLoop_ok_absorb
    (propensity_func : List ℤ → List ℚ) (reactions : List (List ℤ)) (max_time : ℚ)
    (stream : List (ℚ × ℕ)) (current_time : ℚ) (current_state : List ℤ)
    (tr : List (ℚ × List ℤ))
    (hok : simLoop propensity_func reactions max_time stream current_time current_state =
      SimResult.ok tr)
    (hlast : (tr.getLastD (current_time, current_state)).1 < max_time) :
    (propensity_func ((tr.getLastD (current_time, current_state)).2)).sum = 0 := by
  induction stream generalizing current_time current_state tr with
  | nil =>
    rcases simLoop_ok_cases _ _ _ _ _ _ _ hok with ⟨h, hstop⟩ | ⟨h, -⟩ |
      ⟨u, k, rest, row, updated, tr2, hstream, -⟩
    · subst h
      simp at hlast ⊢
      rcases hstop with hstop | hstop
      · exact absurd hlast hstop
      · exact hstop
    · subst h
      simp at hlast
    · simp at hstream
  | cons hd tl ih =>
    rcases simLoop_ok_cases _ _ _ _ _ _ _ hok with ⟨h, hstop⟩ | ⟨h, -⟩ |
      ⟨u, k, rest, row, updated, tr2, hstream, hlt, h0, hu, hinv, hle, hk, hrow,
        happ, hrec, htr⟩
    · subst h
      simp at hlast ⊢
      rcases hstop with hstop | hstop
      · exact absurd hlast hstop
      · exact hstop
    · subst h
      simp at hlast
    · injection hstream with h1 h2
      subst h2
      subst htr
      rw [List.getLastD_cons] at hlast ⊢
      exact ih _ _ _ hrec hlast

/-- Eliminates the division-by-zero outcome: it would require `safeInv` to
fail after the `propensity_sum == 0` break already ruled a zero sum out. -/
theorem simLoop_ne_divZero
    (propensity_func : List ℤ → List ℚ) (reactions : List (List ℤ)) (max_time : ℚ)
    (stream : List (ℚ × ℕ)) (current_time : ℚ) (current_state : List ℤ) :
    ¬ simLoop propensity_func reactions max_time stream current_time current_state =
      SimResult.err SimError.divByZero := by
  induction stream generalizing current_time current_state with
  | nil =>
    intro hok
    rw [simLoop.eq_def] at hok
    split at hok
    case isFalse hlt => simp at hok
    case isTrue hlt =>
      split at hok
      case isTrue h0 => simp at hok
      case isFalse h0 =>
        split at hok
        case h_1 hinv => simp [safeInv, h0] at hinv
        case h_2 scale hinv =>
          split at hok
          case isTrue hsc => simp at hok
          case isFalse hsc => simp at hok
  | cons hd tl ih =>
    obtain ⟨u, k⟩ := hd
    intro hok
    rw [simLoop.eq_def] at hok
    simp only [] at hok
    split at hok
    case isFalse hlt => simp at hok
    case isTrue hlt =>
      split at hok
      case isTrue h0 => simp at hok
      case isFalse h0 =>
        split at hok
        case h_1 hinv => simp [safeInv, h0] at hinv
        case h_2 scale hinv =>
          split at hok
          case isTrue hsc => simp at hok
          case isFalse hsc =>
            split at hok
            case isTrue hu => simp at hok
            case isFalse hu =>
              split at hok
              case isTrue htr => simp at hok
              case isFalse htr =>
                split at hok
                case isTrue hneg => simp at hok
                case isFalse hneg =>
                  split at hok
                  case isFalse hk => simp at hok
                  case isTrue hk =>
                    split at hok
                    case h_1 hrow => simp at hok
                    case h_2 row hrow =>
                      split at hok
                      case h_1 happ => simp at hok
                      case h_2 updated happ =>
                        split at hok
                        case h_1 tr2 hrec => simp at hok
                        case h_2 e hrec =>
                          injection hok with h
                          subst h
                          exact ih _ _ hrec

/-- The guard `propensity_sum == 0` makes the division in the waiting-time
scale unreachable: no run of the loop yields the division-by-zero outcome. -/
theorem simLoop_no_divZero
    (propensity_func : List ℤ → List ℚ) (reactions : List (List ℤ)) (max_time : ℚ)
    (stream : List (ℚ × ℕ)) (current_time : ℚ) (current_state : List ℤ) :
    isDivZeroErr (simLoop propensity_func reactions max_time stream current_time
      current_state) = false := by
  cases hres : simLoop propensity_func reactions max_time stream current_time
    current_state with
  | ok tr => rfl
  | err e =>
    cases e with
    | divByZero =>
      exact absurd hres
        (simLoop_ne_divZero propensity_func reactions max_time stream current_time
          current_state)
    | streamEnded => rfl
    | negativeScale => rfl
    | invalidDraw => rfl
    | negativeProb => rfl
    | indexError => rfl
    | shapeError => rfl

/-- Structure of consecutive recorded points: every consecutive pair of the
trajectory (the current point followed by the loop's suffix) is one fired,
clamped reaction, except possibly the final pair, which may instead be the
horizon truncation (state unchanged, time clamped to the horizon). -/
theorem simLoop_ok_pairs
    (propensity_func : List ℤ → List ℚ) (reactions : List (List ℤ)) (max_time : ℚ)
    (stream : List (ℚ × ℕ)) (current_time : ℚ) (current_state : List ℤ)
    (tr : List (ℚ × List ℤ))
    (hok : simLoop propensity_func reactions max_time stream current_time current_state =
      SimResult.ok tr) :
    ∀ i (h : i + 1 < ((current_time, current_state) :: tr).length),
      ReactStep reactions
        (((current_time, current_state) :: tr).get ⟨i, by omega⟩)
        (((current_time, current_state) :: tr).get ⟨i + 1, h⟩) ∨
      (i + 2 = ((current_time, current_state) :: tr).length ∧
        (((current_time, current_state) :: tr).get ⟨i + 1, h⟩).2 =
          (((current_time, current_state) :: tr).get ⟨i, by omega⟩).2 ∧
        (((current_time, current_state) :: tr).get ⟨i + 1, h⟩).1 = max_time) := by
  induction stream generalizing current_time current_state tr with
  | nil =>
    rcases simLoop_ok_cases _ _ _ _ _ _ _ hok with ⟨h, -⟩ | ⟨h, -⟩ |
      ⟨u, k, rest, row, updated, tr2, hstream, -⟩
    · subst h
      intro i hi
      simp at hi
    · subst h
      intro i hi
      simp at hi
      have hi0 : i = 0 := by omega
      subst hi0
      exact Or.inr ⟨rfl, rfl, rfl⟩
    · simp at hstream
  | cons hd tl ih =>
    rcases simLoop_ok_cases _ _ _ _ _ _ _ hok with ⟨h, -⟩ | ⟨h, -⟩ |
      ⟨u, k, rest, row, updated, tr2, hstream, hlt, h0, hu, hinv, hle, hk, hrow,
        happ, hrec, htr⟩
    · subst h
      intro i hi
      simp at hi
    · subst h
      intro i hi
      simp at hi
      have hi0 : i = 0 := by omega
      subst hi0
      exact Or.inr ⟨rfl, rfl, rfl⟩
    · injection hstream with h1 h2
      subst h2
      subst htr
      intro i hi
      cases i with
      | zero =>
        exact Or.inl ⟨k, row, updated, hrow, happ, rfl⟩
      | succ j =>
        have hj : j + 1 <
            ((current_time + u * (1 / (propensity_func current_state).sum),
              clamp0 updated) :: tr2).length := by
          simp at hi ⊢
          omega
        rcases ih _ _ _ hrec j hj with hreact | ⟨hlen, hstate, htime⟩
        · exact Or.inl hreact
        · refine Or.inr ⟨?_, hstate, htime⟩
          simp at hlen ⊢
          omega

/-- Soundness of the big-step relation: a run derivation computes exactly what
the loop computes. -/
theorem GRun_sound {f : List ℤ → List ℚ} {re : List (List ℤ)} {mT : ℚ}
    {stream : List (ℚ × ℕ)} {t : ℚ} {s : List ℤ} {r : SimResult}
    (h : GRun f re mT stream t s r) : simLoop f re mT stream t s = r := by
  induction h with
  | horizonDone hlt =>
    rw [simLoop.eq_def]
    rw [if_neg hlt]
  | absorbed hlt h0 =>
    rw [simLoop.eq_def]
    rw [if_pos hlt, if_pos h0]
  | divZero hlt h0 hinv =>
    rw [simLoop.eq_def]
    simp [hlt, h0, hinv]
  | negScale hlt h0 hinv hsc =>
    rw [simLoop.eq_def]
    simp [hlt, h0, hinv, hsc]
  | outOfDraws hlt h0 hinv hsc =>
    rw [simLoop.eq_def]
    simp [hlt, h0, hinv, hsc]
  | negDraw hlt h0 hinv hsc hu =>
    rw [simLoop.eq_def]
    simp [hlt, h0, hinv, hsc, hu]
  | truncated hlt h0 hinv hsc hu htr =>
    rw [simLoop.eq_def]
    simp [hlt, h0, hinv, hsc, hu, htr]
  | negProp hlt h0 hinv hsc hu htr hneg =>
    rw [simLoop.eq_def]
    simp [hlt, h0, hinv, hsc, hu, htr, hneg]
  | unsupportedIdx hlt h0 hinv hsc hu htr hneg hk =>
    rw [simLoop.eq_def]
    simp [hlt, h0, hinv, hsc, hu, htr, hneg, hk]
  | missingRow hlt h0 hinv hsc hu htr hneg hk hrow =>
    rw [simLoop.eq_def]
    simp [hlt, h0, hinv, hsc, hu, htr, hneg, hk, hrow]
  | badShape hlt h0 hinv hsc hu htr hneg hk hrow happ =>
    rw [simLoop.eq_def]
    simp [hlt, h0, hinv, hsc, hu, htr, hneg, hk, hrow, happ]
  | fired hlt h0 hinv hsc hu htr hneg hk hrow happ hnext ih =>
    rw [simLoop.eq_def]
    simp only [hlt, h0, hinv, hsc, hu, htr, hneg, hk, hrow, happ, ih]
    rename_i r2
    cases r2 with
    | ok tr => simp [hlt, h0, hinv, hsc, hu, htr, hneg, hk, hrow, happ, ih, consEntry]
    | err e => simp [hlt, h0, hinv, hsc, hu, htr, hneg, hk, hrow, happ, ih, consEntry]

/-- Unfolds one call of `gillespie_simulation` to the loop result with the
initial point prepended. -/
theorem gillespie_eq_consEntry (initial_state : List ℤ)
    (propensity_func : List ℤ → List ℚ) (reaction_func : Unit → List (List ℤ))
    (max_time : ℚ) (stream : List (ℚ × ℕ)) :
    gillespie_simulation initial_state propensity_func reaction_func max_time stream =
      consEntry (0, initial_state)
        (simLoop propensity_func (reaction_func ()) max_time stream 0 initial_state) := by
  unfold gillespie_simulation
  cases hsim : simLoop propensity_func (reaction_func ()) max_time stream 0
    initial_state with
  | ok tr => rfl
  | err e => rfl

/-- Inversion of a successful call of `gillespie_simulation`: the loop
succeeded and the trajectory is the initial point followed by the loop's
suffix. -/
theorem gillespie_ok_elim {initial_state : List ℤ}
    {propensity_func : List ℤ → List ℚ} {reaction_func : Unit → List (List ℤ)}
    {max_time : ℚ} {stream : List (ℚ × ℕ)} {tr : List (ℚ × List ℤ)}
    (hok : gillespie_simulation initial_state propensity_func reaction_func max_time
      stream = SimResult.ok tr) :
    ∃ tr2, simLoop propensity_func (reaction_func ()) max_time stream 0 initial_state =
      SimResult.ok tr2 ∧ tr = (0, initial_state) :: tr2 := by
  rw [gillespie_eq_consEntry] at hok
  cases hsim : simLoop propensity_func (reaction_func ()) max_time stream 0
    initial_state with
  | ok tr2 =>
    rw [hsim] at hok
    injection hok with h
    exact ⟨tr2, rfl, h.symm⟩
  | err e =>
    rw [hsim] at hok
    cases hok

/-- Claim C2: if the propensity sum at the current state is zero the loop stops
without appending a further point, so whenever the returned trajectory's final
time is strictly below the horizon, the propensity vector evaluated at the
final recorded state sums to exactly zero. -/
theorem gillespie_absorbing_final {initial_state : List ℤ}
    {propensity_func : List ℤ → List ℚ} {reaction_func : Unit → List (List ℤ)}
    {max_time : ℚ} {stream : List (ℚ × ℕ)} {tr : List (ℚ × List ℤ)}
    {tf : ℚ} {sf : List ℤ}
    (hok : gillespie_simulation initial_state propensity_func reaction_func max_time
      stream = SimResult.ok tr)
    (hlast : tr.getLast? = some (tf, sf)) (htf : tf < max_time) :
    (propensity_func sf).sum = 0 := by
  obtain ⟨tr2, hsim, htr⟩ := gillespie_ok_elim hok
  subst htr
  rw [List.getLast?_eq_getLast _ (by simp), List.getLast_eq_getLastD] at hlast
  injection hlast with h3
  have hcond : (tr2.getLastD ((0 : ℚ), initial_state)).1 < max_time := by
    rw [h3]
    exact htf
  have habs := simLoop_ok_absorb propensity_func (reaction_func ()) max_time stream 0
    initial_state tr2 hsim hcond
  rw [h3] at habs
  exact habs

/-- Claim C2 witness: a run absorbed at time 0 with a zero propensity vector. -/
theorem gillespie_absorbing_final_witness :
    ((fun _ => ([0] : List ℚ)) ([5] : List ℤ)).sum = 0 :=
  @gillespie_absorbing_final [5] (fun _ => [0]) (fun _ => [[1]]) 10 [] [(0, [5])] 0 [5]
    (by norm_num [gillespie_simulation, simLoop])
    (by simp)
    (by norm_num)

/-- Claim C7: starting from a componentwise non-negative initial state, every
state vector recorded in the returned trajectory is componentwise non-negative,
the update being clamped at zero after every reaction. -/
theorem gillespie_states_nonneg {initial_state : List ℤ}
    {propensity_func : List ℤ → List ℚ} {reaction_func : Unit → List (List ℤ)}
    {max_time : ℚ} {stream : List (ℚ × ℕ)} {tr : List (ℚ × List ℤ)}
    (hinit : ∀ x ∈ initial_state, 0 ≤ x)
    (hok : gillespie_simulation initial_state propensity_func reaction_func max_time
      stream = SimResult.ok tr) :
    ∀ p ∈ tr, ∀ x ∈ p.2, 0 ≤ x := by
  obtain ⟨tr2, hsim, htr⟩ := gillespie_ok_elim hok
  subst htr
  intro p hp
  rcases List.mem_cons.mp hp with hpe | hp2
  · subst hpe
    exact hinit
  · exact simLoop_ok_nonneg propensity_func (reaction_func ()) max_time stream 0
      initial_state tr2 hsim hinit p hp2

/-- Claim C7 witness: the component 6 of the recorded entry `(1, [6])` of a
concrete run is non-negative, by the non-negativity theorem. -/
theorem gillespie_states_nonneg_witness : (0 : ℤ) ≤ 6 :=
  @gillespie_states_nonneg [5] (fun _ => [1]) (fun _ => [[1]]) 1 [(1, 0)]
    [(0, [5]), (1, [6])] (by norm_num)
    (by norm_num [gillespie_simulation, simLoop, safeInv, applyRow, clamp0])
    (1, [6]) (by simp) 6 (by simp)

/-- Claim C8: for a non-positive horizon the loop guard fails immediately and
the returned trajectory is exactly the single initial point, an accepted
degenerate input rather than an error. -/
theorem gillespie_nonpositive_horizon (initial_state : List ℤ)
    (propensity_func : List ℤ → List ℚ) (reaction_func : Unit → List (List ℤ))
    (max_time : ℚ) (stream : List (ℚ × ℕ)) (hmT : max_time ≤ 0) :
    gillespie_simulation initial_state propensity_func reaction_func max_time stream =
      SimResult.ok [(0, initial_state)] := by
  rw [gillespie_eq_consEntry]
  rw [simLoop.eq_def]
  rw [if_neg (not_lt.mpr hmT)]
  rfl

/-- Claim C8 witness: horizon 0 yields the single-point trajectory. -/
theorem gillespie_nonpositive_horizon_witness :
    gillespie_simulation [3] (fun _ => [1]) (fun _ => [[1]]) 0 [(1, 0)] =
      SimResult.ok [(0, [3])] :=
  gillespie_nonpositive_horizon [3] (fun _ => [1]) (fun _ => [[1]]) 0 [(1, 0)]
    (by norm_num)

/-- Claim C9: the engine is deterministic under a fixed random stream: two runs
with identical initial state, propensity evaluator, stoichiometry table,
horizon and random stream produce identical results. -/
theorem gillespie_deterministic {initial_state : List ℤ}
    {propensity_func : List ℤ → List ℚ} {reaction_func : Unit → List (List ℤ)}
    {max_time : ℚ} {stream : List (ℚ × ℕ)} {r1 r2 : SimResult}
    (h1 : GillespieRun initial_state propensity_func reaction_func max_time stream r1)
    (h2 : GillespieRun initial_state propensity_func reaction_func max_time stream r2) :
    r1 = r2 := by
  obtain ⟨a, ha, e1⟩ := h1
  obtain ⟨b, hb, e2⟩ := h2
  have hab : a = b := (GRun_sound ha).symm.trans (GRun_sound hb)
  rw [e1, e2, hab]

/-- Claim C9 witness: two derivations of the same absorbed run agree. -/
theorem gillespie_deterministic_witness :
    SimResult.ok [((0 : ℚ), ([5] : List ℤ))] = SimResult.ok [((0 : ℚ), ([5] : List ℤ))] :=
  @gillespie_deterministic [5] (fun _ => [0]) (fun _ => [[1]]) 1 []
    (SimResult.ok [((0 : ℚ), ([5] : List ℤ))]) (SimResult.ok [((0 : ℚ), ([5] : List ℤ))])
    ⟨SimResult.ok [], GRun.absorbed (by norm_num) (by simp), rfl⟩
    ⟨SimResult.ok [], GRun.absorbed (by norm_num) (by simp), rfl⟩

/-- Claim C10: the scale division `1/propensity_sum` sits behind the
`propensity_sum == 0` break, so no input and no random stream can reach a
division by zero in the waiting-time sampling. -/
theorem gillespie_no_divByZero (initial_state : List ℤ)
    (propensity_func : List ℤ → List ℚ) (reaction_func : Unit → List (List ℤ))
    (max_time : ℚ) (stream : List (ℚ × ℕ)) :
    isDivZeroErr (gillespie_simulation initial_state propensity_func reaction_func
      max_time stream) = false := by
  rw [gillespie_eq_consEntry]
  cases hsim : simLoop propensity_func (reaction_func ()) max_time stream 0
    initial_state with
  | ok tr => rfl
  | err e =>
    cases e with
    | divByZero =>
      exact absurd hsim
        (simLoop_ne_divZero propensity_func (reaction_func ()) max_time stream 0
          initial_state)
    | streamEnded => rfl
    | negativeScale => rfl
    | invalidDraw => rfl
    | negativeProb => rfl
    | indexError => rfl
    | shapeError => rfl

/-- Claim C1 counterexample: with horizon `-1` the loop never runs and the
returned trajectory is the single point `(0, initial_state)`, whose time `0`
exceeds the horizon, refuting the unrestricted claim that the last time is at
most the horizon for every horizon. -/
theorem gillespie_last_time_cex :
    gillespie_simulation [0] (fun _ => [1]) (fun _ => [[1]]) (-1) [] =
      SimResult.ok [(0, [0])] ∧
    (-1 : ℚ) < ([((0 : ℚ), ([0] : List ℤ))].getLastD (0, [0])).1 := by
  constructor
  · rw [gillespie_eq_consEntry]
    rw [simLoop.eq_def]
    rw [if_neg (by norm_num)]
    rfl
  · norm_num

/-- Claim C1 (amended): for every successful run the trajectory is non-empty
and starts with exactly `(0, initial_state)`; whenever the horizon is
non-negative, its last time is at most the horizon. -/
theorem gillespie_traj_start_and_bound {initial_state : List ℤ}
    {propensity_func : List ℤ → List ℚ} {reaction_func : Unit → List (List ℤ)}
    {max_time : ℚ} {stream : List (ℚ × ℕ)} {tr : List (ℚ × List ℤ)}
    (hok : gillespie_simulation initial_state propensity_func reaction_func max_time
      stream = SimResult.ok tr) :
    tr ≠ [] ∧ tr.head? = some (0, initial_state) ∧
      (0 ≤ max_time → (tr.getLastD (0, initial_state)).1 ≤ max_time) := by
  obtain ⟨tr2, hsim, htr⟩ := gillespie_ok_elim hok
  subst htr
  refine ⟨by simp, rfl, ?_⟩
  intro hmT
  rw [List.getLastD_cons]
  have hmem := List.getLastD_mem_cons tr2 ((0 : ℚ), initial_state)
  rcases List.mem_cons.mp hmem with he | hm
  · rw [he]
    exact hmT
  · exact simLoop_ok_time_le _ _ _ _ _ _ _ hsim _ hm

/-- Claim C1 witness: an absorbed run starting and ending at `(0, [5])` with
horizon 10. -/
theorem gillespie_traj_start_and_bound_witness :
    ([((0 : ℚ), ([5] : List ℤ))] ≠ []) ∧
    ([((0 : ℚ), ([5] : List ℤ))].head? = some (0, [5])) ∧
    ((0 : ℚ) ≤ 10 → ([((0 : ℚ), ([5] : List ℤ))].getLastD (0, [5])).1 ≤ 10) :=
  @gillespie_traj_start_and_bound [5] (fun _ => [0]) (fun _ => [[1]]) 10 []
    [(0, [5])] (by norm_num [gillespie_simulation, simLoop])

/-- Claim C3 counterexample: when the sampled waiting time lands exactly on the
horizon the comparison `current_time + time_step > max_time` is false, a
reaction fires at the horizon, and the trajectory ends at exactly the horizon
with the penultimate state different from the final state. -/
theorem gillespie_exact_horizon_cex :
    gillespie_simulation [5] (fun _ => [1]) (fun _ => [[1]]) 1 [(1, 0)] =
      SimResult.ok [(0, [5]), (1, [6])] ∧
    ([((0 : ℚ), ([5] : List ℤ)), (1, [6])].getLastD (0, [5])).1 = 1 ∧
    ([((0 : ℚ), ([5] : List ℤ)), (1, [6])].get ⟨0, by norm_num⟩).2 ≠
      ([((0 : ℚ), ([5] : List ℤ)), (1, [6])].get ⟨1, by norm_num⟩).2 := by
  refine ⟨?_, by norm_num, by simp⟩
  norm_num [gillespie_simulation, simLoop, safeInv, applyRow, clamp0]

/-- Claim C3 (amended): when the trajectory ends at exactly the horizon, the
final state is either the unmodified penultimate state (horizon truncation) or
the penultimate state with one clamped stoichiometry row applied (a reaction
drawn to fire exactly at the horizon). -/
theorem gillespie_horizon_end_shape {initial_state : List ℤ}
    {propensity_func : List ℤ → List ℚ} {reaction_func : Unit → List (List ℤ)}
    {max_time : ℚ} {stream : List (ℚ × ℕ)} {tr : List (ℚ × List ℤ)}
    (hok : gillespie_simulation initial_state propensity_func reaction_func max_time
      stream = SimResult.ok tr) :
    ∀ n (hlen : tr.length = n + 2),
      (tr.get ⟨n + 1, by omega⟩).1 = max_time →
      ((tr.get ⟨n + 1, by omega⟩).2 = (tr.get ⟨n, by omega⟩).2 ∨
        ReactStep (reaction_func ()) (tr.get ⟨n, by omega⟩)
          (tr.get ⟨n + 1, by omega⟩)) := by
  obtain ⟨tr2, hsim, htr⟩ := gillespie_ok_elim hok
  subst htr
  intro n hlen htime
  rcases simLoop_ok_pairs _ _ _ _ _ _ _ hsim n (by omega) with hreact | ⟨-, hstate, -⟩
  · exact Or.inr hreact
  · exact Or.inl hstate

/-- Claim C3 witness: a truncated run ending at the horizon with the state
unchanged at the final step. -/
theorem gillespie_horizon_end_shape_witness :
    ([((0 : ℚ), ([2, 1] : List ℤ)), (1, [3, 1]), (10, [3, 1])].get
        ⟨2, by norm_num⟩).2 =
      ([((0 : ℚ), ([2, 1] : List ℤ)), (1, [3, 1]), (10, [3, 1])].get
        ⟨1, by norm_num⟩).2 ∨
    ReactStep ((fun _ : Unit => [[(1 : ℤ), 0]]) ())
      ([((0 : ℚ), ([2, 1] : List ℤ)), (1, [3, 1]), (10, [3, 1])].get
        ⟨1, by norm_num⟩)
      ([((0 : ℚ), ([2, 1] : List ℤ)), (1, [3, 1]), (10, [3, 1])].get
        ⟨2, by norm_num⟩) :=
  @gillespie_horizon_end_shape [2, 1] (fun _ => [1]) (fun _ => [[1, 0]]) 10
    [(1, 0), (100, 0)] [(0, [2, 1]), (1, [3, 1]), (10, [3, 1])]
    (by norm_num [gillespie_simulation, simLoop, safeInv, applyRow, clamp0])
    1 (by norm_num) (by norm_num)

/-- Claim C4 counterexample: a reaction that would drive the single species
negative is clamped at zero, so the difference between the two consecutive
states of a non-truncation pair is `[0]`, which is not the fired row `[-1]` —
the componentwise difference need not equal a stoichiometry row. -/
theorem gillespie_row_diff_cex :
    gillespie_simulation [0] (fun _ => [1]) (fun _ => [[-1]]) 10 [(1, 0), (100, 0)] =
      SimResult.ok [(0, [0]), (1, [0]), (10, [0])] ∧
    List.zipWith (fun a b : ℤ => b - a)
      ([((0 : ℚ), ([0] : List ℤ)), (1, [0]), (10, [0])].get ⟨0, by norm_num⟩).2
      ([((0 : ℚ), ([0] : List ℤ)), (1, [0]), (10, [0])].get ⟨1, by norm_num⟩).2 ≠
      [-1] ∧
    (0 : ℕ) + 2 < [((0 : ℚ), ([0] : List ℤ)), (1, [0]), (10, [0])].length := by
  refine ⟨?_, by decide, by norm_num⟩
  norm_num [gillespie_simulation, simLoop, safeInv, applyRow, clamp0]

/-- Claim C4 (amended): for every pair of consecutive trajectory entries, the
later state is the componentwise zero-clamp of the earlier state plus one row
of the stoichiometry table — except possibly at the final pair, which may
instead be the horizon truncation (state unchanged, time equal to the
horizon). -/
theorem gillespie_consecutive_pairs {initial_state : List ℤ}
    {propensity_func : List ℤ → List ℚ} {reaction_func : Unit → List (List ℤ)}
    {max_time : ℚ} {stream : List (ℚ × ℕ)} {tr : List (ℚ × List ℤ)}
    (hok : gillespie_simulation initial_state propensity_func reaction_func max_time
      stream = SimResult.ok tr) :
    ∀ i (h : i + 1 < tr.length),
      ReactStep (reaction_func ()) (tr.get ⟨i, by omega⟩) (tr.get ⟨i + 1, h⟩) ∨
      (i + 2 = tr.length ∧ (tr.get ⟨i + 1, h⟩).2 = (tr.get ⟨i, by omega⟩).2 ∧
        (tr.get ⟨i + 1, h⟩).1 = max_time) := by
  obtain ⟨tr2, hsim, htr⟩ := gillespie_ok_elim hok
  subst htr
  exact simLoop_ok_pairs _ _ _ _ _ _ _ hsim

/-- Claim C4 witness: the single consecutive pair of a two-entry trajectory is
one fired clamped reaction. -/
theorem gillespie_consecutive_pairs_witness :
    ReactStep ((fun _ : Unit => [[(1 : ℤ)]]) ())
      ([((0 : ℚ), ([5] : List ℤ)), (1, [6])].get ⟨0, by norm_num⟩)
      ([((0 : ℚ), ([5] : List ℤ)), (1, [6])].get ⟨1, by norm_num⟩) ∨
    (0 + 2 = [((0 : ℚ), ([5] : List ℤ)), (1, [6])].length ∧
      ([((0 : ℚ), ([5] : List ℤ)), (1, [6])].get ⟨1, by norm_num⟩).2 =
        ([((0 : ℚ), ([5] : List ℤ)), (1, [6])].get ⟨0, by norm_num⟩).2 ∧
      ([((0 : ℚ), ([5] : List ℤ)), (1, [6])].get ⟨1, by norm_num⟩).1 = 1) :=
  @gillespie_consecutive_pairs [5] (fun _ => [1]) (fun _ => [[1]]) 1 [(1, 0)]
    [(0, [5]), (1, [6])]
    (by norm_num [gillespie_simulation, simLoop, safeInv, applyRow, clamp0])
    0 (by norm_num)

/-- Claim C5 counterexample: `gillespie_simulation` performs no length
validation: with a one-channel propensity evaluator and a two-row
stoichiometry table, the run silently produces a normal trajectory instead of
failing. -/
theorem gillespie_length_mismatch_cex :
    (mismatchProps [0]).length ≠ (mismatchTable ()).length ∧
    (mismatchProps [1]).length ≠ (mismatchTable ()).length ∧
    gillespie_simulation [0] mismatchProps mismatchTable 10 [(1, 0)] =
      SimResult.ok [(0, [0]), (1, [1])] := by
  refine ⟨by norm_num [mismatchProps, mismatchTable],
    by norm_num [mismatchProps, mismatchTable], ?_⟩
  norm_num [gillespie_simulation, simLoop, safeInv, applyRow, clamp0,
    mismatchProps, mismatchTable]

/-- Claim C5 (amended): the engine never checks the propensity-vector length
against the stoichiometry table; a mismatch surfaces only when a drawn
reaction index falls outside the table, in which case that step raises an
index error (the shorter-propensity direction is silently accepted, as the
counterexample shows). -/
theorem gillespie_out_of_table_index_error
    (initial_state : List ℤ) (propensity_func : List ℤ → List ℚ)
    (reaction_func : Unit → List (List ℤ)) (max_time u : ℚ) (k : ℕ)
    (rest : List (ℚ × ℕ))
    (hmT : (0 : ℚ) < max_time)
    (h0 : (propensity_func initial_state).sum ≠ 0)
    (hsc : ¬ 1 / (propensity_func initial_state).sum < 0)
    (hu : ¬ u < 0)
    (htr : ¬ (0 : ℚ) + u * (1 / (propensity_func initial_state).sum) > max_time)
    (hneg : (propensity_func initial_state).any (fun p => decide (p < 0)) = false)
    (hk : k < (propensity_func initial_state).length)
    (hbig : (reaction_func ()).length ≤ k) :
    gillespie_simulation initial_state propensity_func reaction_func max_time
      ((u, k) :: rest) = SimResult.err SimError.indexError := by
  rw [gillespie_eq_consEntry]
  rw [simLoop.eq_def]
  have hinv : safeInv (propensity_func initial_state).sum =
      some (1 / (propensity_func initial_state).sum) := by
    unfold safeInv
    rw [if_neg h0]
  have hsc2 : ¬ (propensity_func initial_state).sum < 0 := fun hcon =>
    hsc (one_div_neg.mpr hcon)
  have htr2 : ¬ max_time < u * ((propensity_func initial_state).sum)⁻¹ := by
    simpa using htr
  simp [hmT, h0, hinv, hsc2, hu, htr2, hneg, hk, List.getElem?_eq_none hbig, consEntry]

/-- Claim C5 witness: an empty stoichiometry table with one active channel
makes the first drawn reaction index out of range, raising the index error. -/
theorem gillespie_out_of_table_index_error_witness :
    gillespie_simulation [0] (fun _ => [1]) (fun _ => []) 10 [(1, 0)] =
      SimResult.err SimError.indexError :=
  gillespie_out_of_table_index_error [0] (fun _ => [1]) (fun _ => []) 10 1 0 []
    (by norm_num) (by norm_num) (by norm_num) (by norm_num) (by norm_num)
    (by simp) (by norm_num) (by norm_num)

/-- Claim C6 counterexample: with horizon `-1` the trajectory's single entry
has time `0`, which exceeds the horizon, refuting the unrestricted claim that
no time entry exceeds the horizon. -/
theorem gillespie_time_bound_cex :
    gillespie_simulation [0] (fun _ => [1]) (fun _ => [[1]]) (-1) [] =
      SimResult.ok [(0, [0])] ∧
    (-1 : ℚ) < ([((0 : ℚ), ([0] : List ℤ))].get ⟨0, by norm_num⟩).1 := by
  constructor
  · rw [gillespie_eq_consEntry]
    rw [simLoop.eq_def]
    rw [if_neg (by norm_num)]
    rfl
  · norm_num

/-- Claim C6 (amended): the recorded times are monotonically non-decreasing and
start at time 0; whenever the horizon is non-negative, no time entry exceeds
the horizon. -/
theorem gillespie_times_monotone {initial_state : List ℤ}
    {propensity_func : List ℤ → List ℚ} {reaction_func : Unit → List (List ℤ)}
    {max_time : ℚ} {stream : List (ℚ × ℕ)} {tr : List (ℚ × List ℤ)}
    (hok : gillespie_simulation initial_state propensity_func reaction_func max_time
      stream = SimResult.ok tr) :
    List.Chain' (fun a b : ℚ × List ℤ => a.1 ≤ b.1) tr ∧
    tr.head? = some (0, initial_state) ∧
    (0 ≤ max_time → ∀ p ∈ tr, p.1 ≤ max_time) := by
  obtain ⟨tr2, hsim, htr⟩ := gillespie_ok_elim hok
  subst htr
  refine ⟨simLoop_ok_chain _ _ _ _ _ _ _ hsim, rfl, ?_⟩
  intro hmT p hp
  rcases List.mem_cons.mp hp with he | hm
  · subst he
    exact hmT
  · exact simLoop_ok_time_le _ _ _ _ _ _ _ hsim p hm

/-- Claim C6 witness: a three-entry truncated trajectory with non-decreasing
times starting at 0, all bounded by the horizon 10. -/
theorem gillespie_times_monotone_witness :
    List.Chain' (fun a b : ℚ × List ℤ => a.1 ≤ b.1)
      [((0 : ℚ), ([2, 1] : List ℤ)), (1, [3, 1]), (10, [3, 1])] ∧
    [((0 : ℚ), ([2, 1] : List ℤ)), (1, [3, 1]), (10, [3, 1])].head? =
      some (0, [2, 1]) ∧
    ((0 : ℚ) ≤ 10 →
      ∀ p ∈ [((0 : ℚ), ([2, 1] : List ℤ)), (1, [3, 1]), (10, [3, 1])], p.1 ≤ 10) :=
  @gillespie_times_monotone [2, 1] (fun _ => [1]) (fun _ => [[1, 0]]) 10
    [(1, 0), (100, 0)] [(0, [2, 1]), (1, [3, 1]), (10, [3, 1])]
    (by norm_num [gillespie_simulation, simLoop, safeInv, applyRow, clamp0])

example :
    gillespie_simulation [2, 1] (fun _ => [1]) (fun _ => [[1, 0]]) 10
      [(1, 0), (100, 0)] =
    SimResult.ok [(0, [2, 1]), (1, [3, 1]), (10, [3, 1])] := by
  norm_num [gillespie_simulation, simLoop, safeInv, applyRow, clamp0]

example :
    gillespie_simulation [5] (fun _ => [0]) (fun _ => [[1]]) 10 [] =
    SimResult.ok [(0, [5])] := by
  norm_num [gillespie_simulation, simLoop, safeInv, applyRow, clamp0]

end Gillespie
